import Mathlib

/-!
Verification of the observable graph engine of `domicjs/domic-observable`
(`src/observable.ts`, first variant — the one the claims cite by line number).

The embedding models callbacks observationally: invoking an observer's
callback is recorded as a `Call` event (callback identity, new value, old
value); the engine's own state transitions are translated directly from the
TypeScript methods.
-/

namespace Domic

/-- A delivered callback invocation: the observer's callback identity and the
`(newval, oldval)` arguments it received. -/
structure Call (α : Type) where
  fnId : Nat
  newVal : α
  oldVal : α
deriving Repr, DecidableEq

/-- State of an `Observer` as registered on an `Observable` (class `Observer`,
src/observable.ts lines 36-78). `old_value` is typed `A` in the source and is
assigned from the observable's current value by `addObserver` before the
observer is pushed, so it is always set for registered observers. `fn` is
identified by `fnId`; its invocations are recorded as `Call` events. -/
structure Observer (α : Type) where
  fnId : Nat
  old_value : α
  last_value : Option α
  is_paused : Bool
deriving Repr, DecidableEq

/-- Lines 48-58: `call(new_value)` — when paused, buffer the value and emit
nothing; otherwise shift `old_value` and invoke the callback once. -/
def Observer.call (ob : Observer α) (new_value : α) : Observer α × List (Call α) :=
  if ob.is_paused then
    ({ ob with last_value := some new_value }, [])
  else
    ({ ob with old_value := new_value }, [⟨ob.fnId, new_value, ob.old_value⟩])

/-- Lines 60-62: `pause()` on an observer. -/
def Observer.pause (ob : Observer α) : Observer α :=
  { ob with is_paused := true }

/-- State of an `Observable` / `WritableObservable` (lines 182-236, 563-572)
whose `observed` (upstream) list is empty, which is the case for every leaf
container: the `addObserver`/`removeObserver` cascades over `observed` are
no-ops for it. Graphs with upstream wiring are modelled separately. -/
structure Observable (α : Type) where
  value : α
  observers : List (Observer α)
  paused_notify : Int
deriving Repr, DecidableEq

/-- Helper for the `for (var ob of this.observers) ob.call(this.value)` loop:
threads each observer's state and concatenates the emitted calls in list
order. -/
def callAll (v : α) : List (Observer α) → List (Observer α) × List (Call α)
  | [] => ([], [])
  | ob :: rest =>
    let r := ob.call v
    let rr := callAll v rest
    (r.1 :: rr.1, r.2 ++ rr.2)

/-- Lines 230-237: `notify()` — when paused, set the pending flag to `1` and
fire nothing; otherwise call every observer with the current value. -/
def Observable.notify (c : Observable α) : Observable α × List (Call α) :=
  if c.paused_notify > -1 then
    ({ c with paused_notify := 1 }, [])
  else
    let r := callAll c.value c.observers
    ({ c with observers := r.1 }, r.2)

/-- Lines 569-572: `WritableObservable.set(value)` — assign the value and call
`notify()`. The source performs no equality check before notifying. -/
def Observable.set (c : Observable α) (value : α) : Observable α × List (Call α) :=
  Observable.notify { c with value := value }

/-- Lines 197-199: `get()`. -/
def Observable.get (c : Observable α) : α :=
  c.value

/-- Lines 212-215: `pause()`. -/
def Observable.pause (c : Observable α) : Observable α :=
  if c.paused_notify = -1 then { c with paused_notify := 0 } else c

/-- Lines 217-222: `resume()` — unpause, then notify once when the frozen
pending flag is positive. -/
def Observable.resume (c : Observable α) : Observable α × List (Call α) :=
  let frozen := c.paused_notify
  let c1 : Observable α := { c with paused_notify := -1 }
  if frozen > 0 then c1.notify else (c1, [])

/-- Lines 242-256: `addObserver(fn)` for a leaf container (empty `observed`
list, so the first-observer activation loop is a no-op): the new observer's
`old_value` is set from `this.get()` and the observer is appended. -/
def Observable.addObserver (c : Observable α) (fnId : Nat) : Observable α :=
  let ob : Observer α :=
    { fnId := fnId, old_value := c.get, last_value := none, is_paused := false }
  { c with observers := c.observers ++ [ob] }

/-- Lines 262-272: `removeObserver(ob)`. The source filters with
`this.observers.filter(ob => ob !== ob)`: the arrow-function parameter shadows
the method argument, so each element is compared with itself; the binder below
shadows the argument the same way. (The subsequent upstream-deactivation loop
over `observed` is a no-op for a leaf container.) -/
def Observable.removeObserver [DecidableEq α] (c : Observable α) (ob : Observer α) :
    Observable α :=
  { c with observers := c.observers.filter (fun ob => decide (ob ≠ ob)) }

/-- Sequencing helper: perform `set` for each value in turn, concatenating the
emitted calls. -/
def Observable.setMany (c : Observable α) : List α → Observable α × List (Call α)
  | [] => (c, [])
  | v :: vs =>
    let r := c.set v
    let rr := r.1.setMany vs
    (rr.1, r.2 ++ rr.2)

end Domic

namespace Domic

/-! Helper lemmas about the fan-out loop. -/

/-- Fan-out over unpaused observers delivers exactly one call per observer, in
list order, with the current value as `newval` and each observer's own
`old_value` as `oldval`. -/
theorem callAll_calls (v : α) (l : List (Observer α))
    (h : ∀ ob ∈ l, ob.is_paused = false) :
    (callAll v l).2 = l.map (fun ob => ⟨ob.fnId, v, ob.old_value⟩) := by
  induction l with
  | nil => rfl
  | cons ob rest ih =>
    have hob : ob.is_paused = false := h ob (List.mem_cons_self _ _)
    have hrest : ∀ o ∈ rest, o.is_paused = false :=
      fun o ho => h o (List.mem_cons_of_mem _ ho)
    simp [callAll, Observer.call, hob, ih hrest]

/-- Each observer emits at most one call during a fan-out. -/
theorem callAll_length (v : α) (l : List (Observer α)) :
    (callAll v l).2.length ≤ l.length := by
  induction l with
  | nil => simp [callAll]
  | cons ob rest ih =>
    by_cases hp : ob.is_paused
    · simp [callAll, Observer.call, hp]
      omega
    · simp [callAll, Observer.call, hp]
      omega

/-- While the container is paused, a sequence of sets emits no call, leaves the
observers untouched, stores the last value set (or keeps the old one), and
leaves the pending flag at `1` exactly when at least one set occurred. -/
theorem setMany_paused (vs : List α) (c : Observable α) (h : 0 ≤ c.paused_notify) :
    (c.setMany vs).2 = [] ∧
    (c.setMany vs).1.observers = c.observers ∧
    (c.setMany vs).1.value = vs.getLastD c.value ∧
    (c.setMany vs).1.paused_notify = if vs.isEmpty then c.paused_notify else 1 := by
  induction vs generalizing c with
  | nil => simp [Observable.setMany]
  | cons v rest ih =>
    have hgt : ({ c with value := v } : Observable α).paused_notify > -1 := by
      simp; omega
    have hstep : c.set v = ((⟨v, c.observers, 1⟩ : Observable α), []) := by
      simp [Observable.set, Observable.notify, hgt]
    have ih2 := ih (⟨v, c.observers, 1⟩ : Observable α) (by simp)
    rcases ih2 with ⟨h1, h2, h3, h4⟩
    refine ⟨?_, ?_, ?_, ?_⟩
    · simp [Observable.setMany, hstep, h1]
    · simp [Observable.setMany, hstep, h2]
    · simp only [Observable.setMany, hstep, h3, List.getLastD_cons]
    · simp only [Observable.setMany, hstep, h4]
      cases rest <;> simp

end Domic

namespace Domic

/-! Claim C1: whether setting a container to its current value notifies. -/

/-- Concrete container holding `1` with one registered observer whose last
delivered value is `1`. -/
def c1ex : Observable Int :=
  ⟨1, [⟨0, 1, none, false⟩], -1⟩

/-- Claim C1 counterexample: `set(v)` with `v` equal to the current value (here
the primitive `1`, equal under the library's value-equality rule for
primitives) still invokes the registered observer — `WritableObservable.set`
performs no equality check before `notify`, so the claim that no observer
callback is invoked is false. -/
theorem set_equal_value_notifies_ce :
    (c1ex.set 1).2 = [⟨0, 1, 1⟩] ∧ (c1ex.set 1).2 ≠ [] := by decide

/-- Claim C1 amended: `set(v)` always notifies, even when `v` equals the
current value: on an unpaused container, every unpaused observer is invoked
exactly once by that set, receiving `(v, old)` where `old` is its last
delivered value — for an observer that last saw `v`, both arguments are `v`. -/
theorem set_equal_value_notifies (c : Observable α) (v : α)
    (hp : c.paused_notify = -1)
    (hob : ∀ ob ∈ c.observers, ob.is_paused = false)
    (heq : v = c.value) :
    (c.set v).2 = c.observers.map (fun ob => ⟨ob.fnId, v, ob.old_value⟩) := by
  have hnp : ¬ (({ c with value := v } : Observable α).paused_notify > -1) := by
    simp [hp]
  simp only [Observable.set, Observable.notify, hnp, if_false]
  exact callAll_calls v c.observers hob

/-- Claim C1 amended, witness: at the concrete container `c1ex`, setting the
current value `1` delivers one call `(1, 1)` to its observer. -/
theorem set_equal_value_notifies_witness :
    c1ex.paused_notify = -1 ∧ (∀ ob ∈ c1ex.observers, ob.is_paused = false) ∧
    (1 : Int) = c1ex.value ∧
    (c1ex.set 1).2 = c1ex.observers.map (fun ob => ⟨ob.fnId, 1, ob.old_value⟩) :=
  ⟨by decide, by decide, by decide,
    set_equal_value_notifies c1ex 1 (by decide) (by decide) (by decide)⟩

/-! Claim C2: setting a fresh value stores it and fans out once per observer. -/

/-- Claim C2: for an unpaused container whose observers are unpaused and in
sync (each `old_value` is the current value, as `addObserver` and every
delivered notification establish), `set(v)` with `v ≠ get()` makes `get()`
return `v` and delivers exactly one call per previously added observer, in
order, with arguments `(v, previous)` where `previous` is the value held
before the set. -/
theorem set_new_value_delivers (c : Observable α) (v : α)
    (hp : c.paused_notify = -1)
    (hob : ∀ ob ∈ c.observers, ob.is_paused = false ∧ ob.old_value = c.value)
    (hne : v ≠ c.value) :
    (c.set v).1.get = v ∧
    (c.set v).2 = c.observers.map (fun ob => ⟨ob.fnId, v, c.value⟩) := by
  have hnp : ¬ (({ c with value := v } : Observable α).paused_notify > -1) := by
    simp [hp]
  constructor
  · simp [Observable.set, Observable.notify, hnp, Observable.get]
  · simp only [Observable.set, Observable.notify, hnp, if_false]
    rw [callAll_calls v c.observers (fun ob h => (hob ob h).1)]
    exact List.map_congr_left (fun ob h => by rw [(hob ob h).2])

/-- Claim C2 witness: a container holding `0` with one synced observer; setting
`7` yields `get() = 7` and the single call `(7, 0)`. -/
theorem set_new_value_delivers_witness :
    ((⟨0, [⟨3, 0, none, false⟩], -1⟩ : Observable Int).set 7).1.get = 7 ∧
    ((⟨0, [⟨3, 0, none, false⟩], -1⟩ : Observable Int).set 7).2 =
      [⟨3, 7, 0⟩] :=
  set_new_value_delivers (⟨0, [⟨3, 0, none, false⟩], -1⟩ : Observable Int) 7
    (by decide) (by decide) (by decide)

end Domic

namespace Domic

/-! Claim C3: pause/resume collapses intermediate sets into one delivery. -/

/-- Claim C3: on an unpaused container with synced, unpaused observers, the
sequence `pause(); set(v₁); …; set(vₙ); resume()` emits no call during the
paused sets, and `resume` flushes exactly one notification — one call per
observer, with the last value set as `newval` and the value held before
`pause` as `oldval` — if and only if at least one set occurred while paused
(`resume` after zero sets emits nothing). -/
theorem pause_sets_resume_collapses (c : Observable α) (vs : List α)
    (hp : c.paused_notify = -1)
    (hob : ∀ ob ∈ c.observers, ob.is_paused = false ∧ ob.old_value = c.value) :
    ((c.pause.setMany vs).2 = []) ∧
    ((c.pause.setMany vs).1.resume.2 =
      if vs.isEmpty then []
      else c.observers.map (fun ob => ⟨ob.fnId, vs.getLastD c.value, c.value⟩)) := by
  have hpause : c.pause = { c with paused_notify := 0 } := by
    simp [Observable.pause, hp]
  have hm := setMany_paused vs { c with paused_notify := 0 } (by simp)
  rcases hm with ⟨h1, h2, h3, h4⟩
  refine ⟨by rw [hpause]; exact h1, ?_⟩
  rw [hpause]
  cases hvs : vs.isEmpty with
  | true =>
    have hfrozen : ((({ c with paused_notify := 0 } : Observable α).setMany
        vs).1).paused_notify = 0 := by rw [h4, hvs]; rfl
    simp only [Observable.resume, hfrozen, if_neg (by omega : ¬ ((0:Int) > 0))]
    simp [hvs]
  | false =>
    have hfrozen : ((({ c with paused_notify := 0 } : Observable α).setMany
        vs).1).paused_notify = 1 := by rw [h4, hvs]; rfl
    simp only [Observable.resume, hfrozen, if_pos (by omega : (1:Int) > 0)]
    have hnp : ¬ ((-1 : Int) > -1) := by omega
    simp only [Observable.notify, hnp, if_false]
    rw [h2, h3]
    simp only [hvs, Bool.false_eq_true, if_false]
    rw [callAll_calls _ _ (fun ob h => (hob ob h).1)]
    exact List.map_congr_left (fun ob h => by rw [(hob ob h).2])

/-- Claim C3 witness: a container holding `0` with one synced observer;
`pause(); set(1); set(2); set(3); resume()` delivers during the sets nothing,
and on resume the single call `(3, 0)`. -/
theorem pause_sets_resume_collapses_witness :
    (((⟨0, [⟨4, 0, none, false⟩], -1⟩ : Observable Int).pause.setMany
      [1, 2, 3]).2 = []) ∧
    (((⟨0, [⟨4, 0, none, false⟩], -1⟩ : Observable Int).pause.setMany
      [1, 2, 3]).1.resume.2 = [⟨4, 3, 0⟩]) := by
  have h := pause_sets_resume_collapses
    (⟨0, [⟨4, 0, none, false⟩], -1⟩ : Observable Int) [1, 2, 3]
    (by decide) (by decide)
  simpa using h

/-! Claim C10: pausing is not depth-counted. -/

/-- Claim C10: `pause()` while already paused is a no-op (a second `pause`
leaves the state of the first), and a single `resume()` always fully unpauses
the container (`paused_notify` returns to `-1`) and flushes at most one
notification — at most one call per observer — regardless of how many
`pause()` calls preceded it. -/
theorem pause_not_depth_counted (c : Observable α) :
    c.pause.pause = c.pause ∧
    c.resume.1.paused_notify = -1 ∧
    c.resume.2.length ≤ c.observers.length := by
  refine ⟨?_, ?_, ?_⟩
  · by_cases hp : c.paused_notify = -1 <;>
      simp [Observable.pause, hp]
  · by_cases hf : c.paused_notify > 0 <;>
      simp [Observable.resume, Observable.notify, hf]
  · by_cases hf : c.paused_notify > 0
    · simp only [Observable.resume, hf, if_true, Observable.notify]
      have hnp : ¬ ((-1 : Int) > -1) := by omega
      simp only [hnp, if_false]
      exact callAll_length _ _
    · simp [Observable.resume, hf]

/-! Claim C9: removing one observer removes every observer. -/

/-- Container holding `0` with two distinct registered observers. -/
def c9ex : Observable Int :=
  ⟨0, [⟨1, 0, none, false⟩, ⟨2, 0, none, false⟩], -1⟩

/-- Claim C9 failing input: removing only the first of two observers leaves the
observer list empty — the source's filter predicate `ob => ob !== ob` compares
each element with itself — so the second observer is also removed and receives
nothing on a subsequent set, contradicting the claim that the other observers
keep receiving notifications. -/
theorem removeObserver_removes_all :
    (c9ex.removeObserver ⟨1, 0, none, false⟩).observers = [] ∧
    ((c9ex.removeObserver ⟨1, 0, none, false⟩).set 5).2 = [] := by decide

end Domic

namespace Domic

/-!
Claim C4: subscription lifecycle across a dependency edge. `Dual` models the
bookkeeping shared by a container `A` and one upstream container `U` that `A`
observes: only observer identities matter here, values play no role. `aObserved`
holds the identities of the upstream observers `A` keeps in its `observed`
list (lines 278-290); each targets `U`, and "started" means registered in
`U`'s observer list (`startObserving`, lines 71-73 calls `U.addObserver`;
`stopObserving`, lines 75-77 calls `U.removeObserver`). `U` itself observes
nothing, so its own `observed` cascades are no-ops.
-/
structure Dual where
  uObs : List Nat
  aObs : List Nat
  aObserved : List Nat
deriving Repr, DecidableEq

/-- Lines 242-256 applied to `U`: append the observer; `U`'s first-observer
activation loop runs over `U.observed = []`. -/
def Dual.uAddObserver (s : Dual) (i : Nat) : Dual :=
  { s with uObs := s.uObs ++ [i] }

/-- Lines 262-272 applied to `U`: the filter predicate compares each element
with itself (the source's callback parameter shadows the argument), and `U`'s
deactivation loop runs over `U.observed = []`. -/
def Dual.uRemoveObserver (s : Dual) (i : Nat) : Dual :=
  { s with uObs := s.uObs.filter (fun i => decide (i ≠ i)) }

/-- Lines 278-290 applied to `A`: push onto `observed`; when `A` already has
observers, the new upstream observer starts immediately (`U.addObserver`). -/
def Dual.aObserve (s : Dual) (i : Nat) : Dual :=
  let s1 : Dual := { s with aObserved := s.aObserved ++ [i] }
  if s1.aObs.length > 0 then s1.uAddObserver i else s1

/-- Lines 242-256 applied to `A`: append; when this is the first observer,
start every upstream observer (register each on `U`). -/
def Dual.aAddObserver (s : Dual) (i : Nat) : Dual :=
  let s1 : Dual := { s with aObs := s.aObs ++ [i] }
  if s1.aObs.length = 1 then
    s1.aObserved.foldl (fun acc r => acc.uAddObserver r) s1
  else s1

/-- Lines 262-272 applied to `A`: the self-comparing filter empties `aObs`;
the list is then empty, so every upstream observer is stopped
(`U.removeObserver` for each). -/
def Dual.aRemoveObserver (s : Dual) (i : Nat) : Dual :=
  let s1 : Dual := { s with aObs := s.aObs.filter (fun i => decide (i ≠ i)) }
  if s1.aObs.length = 0 then
    s1.aObserved.foldl (fun acc r => acc.uRemoveObserver r) s1
  else s1

/-- The concrete operation sequence that breaks the claimed invariant:
`A.observe(U, 10); A.addObserver(1); U.addObserver(2); U.removeObserver(2)`. -/
def c4ex : Dual :=
  ((((⟨[], [], []⟩ : Dual).aObserve 10).aAddObserver 1).uAddObserver
      2).uRemoveObserver 2

/-- Claim C4 failing input: after `A` observes `U` (id 10), `A` gains an
observer (id 1) so its upstream subscription starts, `U` gains a direct
observer (id 2), and that direct observer is removed again, `removeObserver`'s
self-comparing filter empties `U`'s whole observer list: `A` still has an
observer, yet its upstream subscription 10 is no longer registered on `U` —
the claimed "started iff observer list non-empty" invariant is violated, and
`U`'s observer count for `A` reached zero without `A` losing its last
observer. -/
theorem upstream_invariant_broken :
    c4ex.aObs = [1] ∧ c4ex.aObserved = [10] ∧ c4ex.uObs = [] ∧
    ¬ (10 ∈ c4ex.uObs ↔ c4ex.aObs ≠ []) := by decide

end Domic

namespace Domic

/-!
Claim C5: `D = source.tf(f)` (lines 491-502) built on `VirtualObservable`
(lines 739-759). `TfState` threads the pieces of that construction:

* `srcValue` — the source container's current value;
* `started` — whether the refresh observer `obs.observe(this, () => obs.refresh())`
  is registered on the source (it starts when `D` gains its first observer and
  stops when `D` loses its last one);
* `dObs` — the number of observers registered on `D` (`get` consults only
  `this.observers.length === 0`, and the observers' callbacks are opaque to
  `D`'s state);
* `dValue` — `D`'s cached `value`, `undefined` until the first refresh;
* `fnOld` — `old_value` of the wrapping `Observer` `fn` (undefined at
  construction: that observer is never registered, only `call`ed);
* `memo` — the `memoize` closure state: the last `(arg, old)` pair with its
  result.

The transform `f` takes the new and the previous source value, matching
`ObserverFunction<T, U>`; the previous value is `undefined` on the first call.
-/
structure TfState (α β : Type) where
  srcValue : α
  started : Bool
  dObs : Nat
  dValue : Option β
  fnOld : Option α
  memo : Option ((α × Option α) × β)
deriving Repr, DecidableEq

/-- State right after `D = source.tf(f)` on a source holding `x0`: `D` has no
observers, the refresh observer is dormant (`observe` starts it only when `D`
is already observed), and `D.value`, `fn.old_value` and the memo are all
undefined. -/
def tfInit (x0 : α) : TfState α β :=
  ⟨x0, false, 0, none, none, none⟩

/-- Memo consultation of `memoize` (lines 167-179): the cached result when
`(arg, old)` is exactly the last pair seen. -/
def memoLookup [DecidableEq α] [DecidableEq β]
    (memo : Option ((α × Option α) × β)) (k : α × Option α) : Option β :=
  match memo with
  | some (p, r) => if p = k then some r else none
  | none => none

/-- Lines 48-58 with lines 167-179: `fn.call(x)` where
`fn = new Observer(memoize(f), source)`. The observer shifts its `old_value`,
then `memoize` returns the cached result on a hit and otherwise recomputes and
re-caches. -/
def tfFnCall [DecidableEq α] [DecidableEq β] (f : α → Option α → β)
    (s : TfState α β) (x : α) : TfState α β × β :=
  let old := s.fnOld
  match memoLookup s.memo (x, old) with
  | some r => ({ s with fnOld := some x }, r)
  | none =>
    let r2 := f x old
    ({ s with fnOld := some x, memo := some ((x, old), r2) }, r2)

/-- Lines 746-751: `refresh()` — recompute through `fn.call(source.get())`,
store the result, and notify `D`'s observers when the value changed (their
callbacks are opaque and do not act on this state). -/
def tfRefresh [DecidableEq α] [DecidableEq β] (f : α → Option α → β)
    (s : TfState α β) : TfState α β :=
  let r := tfFnCall f s s.srcValue
  { r.1 with dValue := some r.2 }

/-- Lines 753-757: `get()` — refresh first when `D` has no observers, then
return the cached value. -/
def tfGet [DecidableEq α] [DecidableEq β] (f : α → Option α → β)
    (s : TfState α β) : TfState α β × Option β :=
  if s.dObs = 0 then
    let s1 := tfRefresh f s
    (s1, s1.dValue)
  else (s, s.dValue)

/-- Lines 569-572 on the source: store the value and notify the source's
observers — here the refresh observer when started, whose callback runs
`obs.refresh()` (registering the value does not change who observes, so the
branch reads the flag directly). -/
def tfSetSrc [DecidableEq α] [DecidableEq β] (f : α → Option α → β)
    (s : TfState α β) (x : α) : TfState α β :=
  if s.started then tfRefresh f { s with srcValue := x }
  else { s with srcValue := x }

/-- Lines 242-256 on `D`: `addObserver` first reads `this.get()` into the new
observer's `old_value` (which refreshes a cold `D`), then appends; when this
is the first observer, the upstream refresh observer starts observing the
source. -/
def tfAddDObserver [DecidableEq α] [DecidableEq β] (f : α → Option α → β)
    (s : TfState α β) : TfState α β :=
  let s1 := (tfGet f s).1
  let s2 := { s1 with dObs := s1.dObs + 1 }
  if s2.dObs = 1 then { s2 with started := true } else s2

/-- Lines 262-272 on `D`: the self-comparing filter empties `D`'s observer
list, after which the upstream refresh observer is stopped. -/
def tfRemoveDObserver (s : TfState α β) : TfState α β :=
  { s with dObs := 0, started := false }

/-- States reachable from `D = source.tf(f)` by source sets, reads of `D`, and
observer additions/removals on `D`. -/
inductive TfReach [DecidableEq α] [DecidableEq β] (f : α → Option α → β) :
    TfState α β → Prop
  | init (x0 : α) : TfReach f (tfInit x0)
  | set {s} (x : α) : TfReach f s → TfReach f (tfSetSrc f s x)
  | get {s} : TfReach f s → TfReach f (tfGet f s).1
  | add {s} : TfReach f s → TfReach f (tfAddDObserver f s)
  | remove {s} : TfReach f s → TfReach f (tfRemoveDObserver s)

/-- Invariant of reachable states: the memo cache is honest, and the refresh
observer is started exactly when `D` has observers. -/
def TfInv (f : α → Option α → β) (s : TfState α β) : Prop :=
  (∀ p r, s.memo = some (p, r) → r = f p.1 p.2) ∧
  (s.started = true ↔ 0 < s.dObs)

theorem tfFnCall_fields [DecidableEq α] [DecidableEq β] (f : α → Option α → β)
    (s : TfState α β) (x : α) :
    (tfFnCall f s x).1.srcValue = s.srcValue ∧
    (tfFnCall f s x).1.started = s.started ∧
    (tfFnCall f s x).1.dObs = s.dObs ∧
    (tfFnCall f s x).1.dValue = s.dValue := by
  unfold tfFnCall
  cases hm : memoLookup s.memo (x, s.fnOld) <;> simp [hm]

theorem tfFnCall_memo [DecidableEq α] [DecidableEq β] (f : α → Option α → β)
    (s : TfState α β) (x : α)
    (h : ∀ p r, s.memo = some (p, r) → r = f p.1 p.2) :
    ∀ p r, (tfFnCall f s x).1.memo = some (p, r) → r = f p.1 p.2 := by
  unfold tfFnCall
  cases hm : memoLookup s.memo (x, s.fnOld) with
  | some r0 =>
    simp only [hm]
    simpa using h
  | none =>
    simp only [hm]
    intro p r hpr
    simp only [Option.some.injEq, Prod.mk.injEq] at hpr
    obtain ⟨hp2, hr⟩ := hpr
    subst hr
    subst hp2
    rfl

theorem tfFnCall_val [DecidableEq α] [DecidableEq β] (f : α → Option α → β)
    (s : TfState α β) (x : α)
    (h : ∀ p r, s.memo = some (p, r) → r = f p.1 p.2) :
    (tfFnCall f s x).2 = f x s.fnOld := by
  unfold tfFnCall
  cases hm : memoLookup s.memo (x, s.fnOld) with
  | some r0 =>
    simp only [hm]
    unfold memoLookup at hm
    cases hmemo : s.memo with
    | none => rw [hmemo] at hm; simp at hm
    | some pr =>
      rw [hmemo] at hm
      rcases pr with ⟨p, r⟩
      simp only at hm
      by_cases hp : p = (x, s.fnOld)
      · rw [if_pos hp] at hm
        injection hm with h2
        have hr := h p r (by rw [hmemo])
        rw [← h2, hr, hp]
      · rw [if_neg hp] at hm
        cases hm
  | none => simp [hm]

theorem tfRefresh_fields [DecidableEq α] [DecidableEq β] (f : α → Option α → β)
    (s : TfState α β) :
    (tfRefresh f s).srcValue = s.srcValue ∧
    (tfRefresh f s).started = s.started ∧
    (tfRefresh f s).dObs = s.dObs := by
  unfold tfRefresh
  rcases tfFnCall_fields f s s.srcValue with ⟨h1, h2, h3, _⟩
  exact ⟨h1, h2, h3⟩

theorem tfRefresh_dValue [DecidableEq α] [DecidableEq β] (f : α → Option α → β)
    (s : TfState α β) (h : ∀ p r, s.memo = some (p, r) → r = f p.1 p.2) :
    (tfRefresh f s).dValue = some (f s.srcValue s.fnOld) := by
  unfold tfRefresh
  simp only
  rw [tfFnCall_val f s s.srcValue h]

theorem tfRefresh_inv [DecidableEq α] [DecidableEq β] (f : α → Option α → β)
    (s : TfState α β) (h : TfInv f s) : TfInv f (tfRefresh f s) := by
  constructor
  · have := tfFnCall_memo f s s.srcValue h.1
    unfold tfRefresh
    simpa using this
  · rcases tfRefresh_fields f s with ⟨_, h2, h3⟩
    rw [h2, h3]
    exact h.2

theorem tfGet_inv [DecidableEq α] [DecidableEq β] (f : α → Option α → β)
    (s : TfState α β) (h : TfInv f s) : TfInv f (tfGet f s).1 := by
  unfold tfGet
  by_cases h0 : s.dObs = 0
  · simp [h0]
    exact tfRefresh_inv f s h
  · simp only [if_neg h0]
    exact h

theorem tfGet_dObs [DecidableEq α] [DecidableEq β] (f : α → Option α → β)
    (s : TfState α β) : (tfGet f s).1.dObs = s.dObs ∧
    (tfGet f s).1.started = s.started := by
  by_cases h0 : s.dObs = 0
  · have hgoal : (tfGet f s).1 = tfRefresh f s := by
      unfold tfGet
      simp [h0]
    rcases tfRefresh_fields f s with ⟨_, h2, h3⟩
    rw [hgoal, h3, h2]
    exact ⟨rfl, rfl⟩
  · have hgoal : (tfGet f s).1 = s := by
      unfold tfGet
      simp [h0]
    rw [hgoal]
    exact ⟨rfl, rfl⟩

theorem tfReach_inv [DecidableEq α] [DecidableEq β] (f : α → Option α → β)
    (s : TfState α β) (h : TfReach f s) : TfInv f s := by
  induction h with
  | init x0 =>
    exact ⟨by intro p r hpr; simp [tfInit] at hpr, by simp [tfInit]⟩
  | set x _ ih =>
    rename_i s0 _
    unfold tfSetSrc
    by_cases hst : s0.started = true
    · simp [hst]
      exact tfRefresh_inv f _ ⟨ih.1, by simp [hst]; exact ih.2.mp hst⟩
    · have hsf : s0.started = false := by
        cases hb : s0.started
        · rfl
        · exact absurd hb hst
      simp only [hsf, Bool.false_eq_true, if_false]
      refine ⟨ih.1, ?_⟩
      simp only [hsf, Bool.false_eq_true, false_iff]
      intro hpos
      exact hst (ih.2.mpr hpos)
  | get _ ih =>
    exact tfGet_inv f _ ih
  | add _ ih =>
    rename_i s0 _
    have hg : TfInv f (tfGet f s0).1 := tfGet_inv f s0 ih
    unfold tfAddDObserver
    by_cases hone : (tfGet f s0).1.dObs + 1 = 1
    · simp [hone]
      exact ⟨hg.1, by simp⟩
    · simp only [if_neg hone]
      refine ⟨hg.1, ?_⟩
      have hpos : 0 < (tfGet f s0).1.dObs := by omega
      have hst : (tfGet f s0).1.started = true := hg.2.mpr hpos
      simp only [hst]
      constructor
      · intro _; omega
      · intro _; trivial
  | remove _ ih =>
    exact ⟨ih.1, by simp [tfRemoveDObserver]⟩

/-- Claim C5: in any reachable state of the `tf` construction, after
`source.set(x)` a `D.get()` returns `f` applied to the current source value
`x` (paired with the previously seen source value), whether or not `D` has
observers; and when `D` is observed, `get` performs no recomputation — the
cached value was already brought current by the push, while an unobserved `D`
recomputes eagerly inside `get`. -/
theorem tf_get_consistent [DecidableEq α] [DecidableEq β] (f : α → Option α → β)
    (s : TfState α β) (h : TfReach f s) (x : α) :
    (∃ old, (tfGet f (tfSetSrc f s x)).2 = some (f x old)) ∧
    (0 < s.dObs → (tfGet f (tfSetSrc f s x)).1 = tfSetSrc f s x) := by
  have hinv := tfReach_inv f s h
  have hmemo := hinv.1
  constructor
  · refine ⟨s.fnOld, ?_⟩
    by_cases hst : s.started = true
    · have hobs : 0 < s.dObs := hinv.2.mp hst
      have hset : tfSetSrc f s x = tfRefresh f { s with srcValue := x } := by
        unfold tfSetSrc
        simp [hst]
      rw [hset]
      rcases tfRefresh_fields f { s with srcValue := x } with ⟨_, _, h3⟩
      have h0 : ¬ (tfRefresh f { s with srcValue := x }).dObs = 0 := by
        rw [h3]
        show ¬ s.dObs = 0
        omega
      unfold tfGet
      simp only [if_neg h0]
      exact tfRefresh_dValue f { s with srcValue := x } (by simpa using hmemo)
    · have hsf : s.started = false := by
        cases hb : s.started
        · rfl
        · exact absurd hb hst
      have hset : tfSetSrc f s x = { s with srcValue := x } := by
        unfold tfSetSrc
        simp only [hsf, Bool.false_eq_true, if_false]
      have hobs : s.dObs = 0 := by
        rcases Nat.eq_zero_or_pos s.dObs with h0 | hpos
        · exact h0
        · exact absurd (hinv.2.mpr hpos) hst
      rw [hset]
      have hgoal : tfGet f { s with srcValue := x } =
          (tfRefresh f { s with srcValue := x },
            (tfRefresh f { s with srcValue := x }).dValue) := by
        unfold tfGet
        simp [hobs]
      rw [hgoal]
      exact tfRefresh_dValue f { s with srcValue := x } (by simpa using hmemo)
  · intro hpos
    have hst : s.started = true := hinv.2.mpr hpos
    have hset : tfSetSrc f s x = tfRefresh f { s with srcValue := x } := by
      unfold tfSetSrc
      simp [hst]
    rcases tfRefresh_fields f { s with srcValue := x } with ⟨_, _, h3⟩
    have h0 : ¬ (tfRefresh f { s with srcValue := x }).dObs = 0 := by
      rw [h3]
      show ¬ s.dObs = 0
      omega
    rw [hset]
    unfold tfGet
    simp only [if_neg h0]

/-- Claim C5 witness: the freshly constructed `D = source.tf(fun x old => x + 1)`
over a source holding `0`; after `source.set(5)`, `D.get()` returns `6`. -/
theorem tf_get_consistent_witness :
    (∃ old, (tfGet (fun (x : Int) (_ : Option Int) => x + 1)
      (tfSetSrc (fun (x : Int) (_ : Option Int) => x + 1)
        (tfInit 0) 5)).2 = some ((fun (x : Int) (_ : Option Int) => x + 1) 5 old)) ∧
    (0 < (tfInit 0 : TfState Int Int).dObs →
      (tfGet (fun (x : Int) (_ : Option Int) => x + 1)
        (tfSetSrc (fun (x : Int) (_ : Option Int) => x + 1) (tfInit 0) 5)).1 =
      tfSetSrc (fun (x : Int) (_ : Option Int) => x + 1) (tfInit 0) 5) :=
  tf_get_consistent (fun (x : Int) (_ : Option Int) => x + 1)
    (tfInit 0) (TfReach.init 0) 5

end Domic

namespace Domic

/-!
Claim C6: `WritableObservable.filtered` (lines 625-650), which passes an
already-memoized getter to `WritableObservable.tf` (lines 583-596), whose
`VirtualWritableObservable` applies `Observer` + `memoize` once more — so the
getter body sits behind two memoization layers, and the `indexes` closure
variable is refilled only when the inner layer actually runs the body. The
array element type is `Int` as in the claim's scenario. `FState` extends the
`tf` bookkeeping with the source container (an `Observable (List Int)` so the
commit's notifications are observable), the `indexes` closure, and both memo
layers.
-/
structure FState where
  src : Observable (List Int)
  indexes : List Nat
  dObs : Nat
  started : Bool
  dValue : Option (List Int)
  fnOld : Option (List Int)
  memoOuter : Option ((List Int × Option (List Int)) × List Int)
  memoInner : Option ((List Int × Option (List Int)) × List Int)
deriving Repr, DecidableEq

/-- Getter body of `filtered` (lines 628-635): `indexes = []`, then
`arr.filter((item, index) => { if (fn(item)) indexes.push(index); ... })` —
one pass from index `i` collecting kept indices and kept elements. -/
def filterIdx (p : Int → Bool) : Nat → List Int → List Nat × List Int
  | _, [] => ([], [])
  | i, x :: rest =>
    let r := filterIdx p (i + 1) rest
    if p x then (i :: r.1, x :: r.2) else r

/-- Inner memoized getter call (the `memoize` applied inside `filtered`): on a
hit the body is skipped — including its side effect on `indexes`; on a miss
the body refills `indexes` and the result is cached. -/
def filteredInnerCall (p : Int → Bool) (s : FState) (x : List Int)
    (old : Option (List Int)) : FState × List Int :=
  match memoLookup s.memoInner (x, old) with
  | some r => (s, r)
  | none =>
    let pr := filterIdx p 0 x
    ({ s with indexes := pr.1, memoInner := some ((x, old), pr.2) }, pr.2)

/-- Outer layer (lines 587-591): `fn = new Observer(memoize(fnget), this)`;
`fn.call(x)` shifts `old_value` then consults the outer memo before invoking
the inner memoized getter. -/
def filteredFnCall (p : Int → Bool) (s : FState) (x : List Int) :
    FState × List Int :=
  let old := s.fnOld
  let s1 := { s with fnOld := some x }
  match memoLookup s1.memoOuter (x, old) with
  | some r => (s1, r)
  | none =>
    let ri := filteredInnerCall p s1 x old
    ({ ri.1 with memoOuter := some ((x, old), ri.2) }, ri.2)

/-- Lines 774-779: `refresh()` on the `VirtualWritableObservable` — recompute
through the getter and cache; its own observers' callbacks are opaque. -/
def filteredRefresh (p : Int → Bool) (s : FState) : FState :=
  let r := filteredFnCall p s s.src.value
  { r.1 with dValue := some r.2 }

/-- Lines 781-785: `get()` — refresh first when the derived array has no
observers. -/
def filteredGet (p : Int → Bool) (s : FState) : FState × Option (List Int) :=
  if s.dObs = 0 then
    let s1 := filteredRefresh p s
    (s1, s1.dValue)
  else (s, s.dValue)

/-- Write-back loop of lines 643-645:
`for (i = 0; i < len; i++) local_array[indexes[i]] = transformed_array[i]`
(the scenario keeps `len = indexes.length`, so the zip is exact). -/
def writeBack (localArr : List Int) (idxs : List Nat) (vals : List Int) :
    List Int :=
  (idxs.zip vals).foldl (fun acc iv => acc.set iv.1 iv.2) localArr

/-- Commit part of the setter (lines 642-647): shallow-clone the source value
(lists are immutable here, so the clone is the value itself), apply the
write-back loop, and commit through a single `this.set(local_array)` — whose
notification calls are returned; when the derived array is observed, the
source notification also reruns its refresh observer. -/
def filteredCommit (p : Int → Bool) (s : FState) (v : List Int) :
    FState × List (Call (List Int)) :=
  let localArr := writeBack s.src.value s.indexes v
  let r := s.src.set localArr
  let s1 := { s with src := r.1 }
  if s1.started then (filteredRefresh p s1, r.2) else (s1, r.2)

/-- Lines 787-792 with the `filtered` setter (lines 636-648): `set(value)`
reads `old_value = this.value` (undefined before any refresh) and hands both
to the setter, which throws when a defined old transformed array has a
different length, and otherwise writes back and commits once. -/
def filteredSet (p : Int → Bool) (s : FState) (v : List Int) :
    Except String (FState × List (Call (List Int))) :=
  let old := s.dValue
  match old with
  | some ot =>
    if v.length ≠ ot.length then
      Except.error "filtered arrays may not change size by themselves"
    else Except.ok (filteredCommit p s v)
  | none => Except.ok (filteredCommit p s v)

/-- The scenario's predicate: keep even elements. -/
def evenP (x : Int) : Bool := decide (x % 2 = 0)

/-- The claim's starting state: `arr = o([1,2,3,4])` carrying one external
observer (the spy, id 9, registered beforehand), and
`f = arr.filtered(evenP)` fresh and unobserved. -/
def fs0 : FState :=
  { src := ⟨[1, 2, 3, 4], [⟨9, [1, 2, 3, 4], none, false⟩], -1⟩,
    indexes := [], dObs := 0, started := false, dValue := none,
    fnOld := none, memoOuter := none, memoInner := none }

/-- Claim C6: `f.get()` yields `[2,4]`; `f.set([20,40])` writes each element
back at its alive source index, making the source `[1,20,3,40]` through a
single source set — the source's observer receives exactly one call — and a
subsequent `f.set([1,2,3])` of mismatched length throws the length error. -/
theorem filtered_write_back :
    (filteredGet evenP fs0).2 = some [2, 4] ∧
    ∃ s1 calls,
      filteredSet evenP (filteredGet evenP fs0).1 [20, 40] =
        Except.ok (s1, calls) ∧
      s1.src.value = [1, 20, 3, 40] ∧
      calls = [⟨9, [1, 20, 3, 40], [1, 2, 3, 4]⟩] ∧
      filteredSet evenP s1 [1, 2, 3] =
        Except.error "filtered arrays may not change size by themselves" :=
  ⟨rfl, _, _, rfl, rfl, rfl, rfl⟩

end Domic

namespace Domic

/-!
Claim C7: `VirtualWritableObservable.set` (lines 787-792) carries the comment
"Missing a way of not recursing infinitely" — there is no feedback-loop
guard. `LoopState` models the concrete failing setup

  `oa = o(2); m = o.merge({a: oa}); m.addObserver(cb)` with
  `cb = (v, old) => m.set(v)` — a re-entrant set from a notification callback.

`o.merge`'s `_get` (lines 848-856) builds a **fresh** record object on every
call, so the `old !== val` test in `refresh` (line 750) always notifies once
`m` holds any record: record identity is modelled as an allocation counter
(`ctr`), a record being `(identity, payload of property a)`. `oaValue` is the
source container's value, `mValue` the merge's cached `value`, `cbOld` the
callback observer's `old_value`. One unfolding of `mergeLoopSet` is one
`m.set(v)` call:

* `_set` runs `oa.set(v.a)` (no equality check, lines 569-572), so `oa`
  notifies its refresh observer unconditionally;
* `m.refresh()` computes `_get()` — a fresh record `(ctr, oaValue)` — and
  compares it with the cached one by identity; the identities always differ,
  so `m.notify()` runs `cb.call(fresh)`, which shifts `cb`'s `old_value` and
  re-enters `m.set(fresh)` with one unit of fuel less.

Running out of fuel (`none`) means the original `set` never returned.
-/
structure LoopState where
  ctr : Nat
  oaValue : Int
  mValue : Option (Nat × Int)
  cbOld : Option (Nat × Int)
deriving Repr, DecidableEq

/-- One `m.set(v)` call of the failing setup, fuel-bounded. The `some` branch
(cached record identical to the fresh one) is the only way the call chain
returns. -/
def mergeLoopSet : Nat → LoopState → Nat × Int → Option LoopState
  | 0, _, _ => none
  | fuel + 1, s, v =>
    if s.mValue = some (s.ctr, v.2) then
      some (⟨s.ctr + 1, v.2, some (s.ctr, v.2), s.cbOld⟩ : LoopState)
    else
      mergeLoopSet fuel
        (⟨s.ctr + 1, v.2, some (s.ctr, v.2), some (s.ctr, v.2)⟩ : LoopState)
        (s.ctr, v.2)

/-- Freshly allocated records are never the cached one: whenever every record
held in `mValue` predates the allocation counter, the call never returns, for
any amount of fuel. -/
theorem mergeLoopSet_no_return (fuel : Nat) (s : LoopState) (v : Nat × Int)
    (h : ∀ i pld, s.mValue = some (i, pld) → i < s.ctr) :
    mergeLoopSet fuel s v = none := by
  induction fuel generalizing s v with
  | zero => rfl
  | succ n ih =>
    have hne : ¬ s.mValue = some (s.ctr, v.2) := by
      intro hc
      have := h s.ctr v.2 hc
      omega
    simp only [mergeLoopSet, if_neg hne]
    apply ih
    intro i pld hi
    simp only [Option.some.injEq, Prod.mk.injEq] at hi
    show i < s.ctr + 1
    omega

/-- State after the wiring of the failing setup: `m.addObserver(cb)` first
reads `m.get()` (refreshing the cold merge to the record `(0, 2)`, advancing
the counter to `1`) and sets `cb.old_value` to it, then starts the upstream
refresh observer on `oa`. -/
def loop0 : LoopState := ⟨1, 2, some (0, 2), some (0, 2)⟩

/-- Claim C7 evaluation at the failing input: `m.set({a: 2})` (the fresh
argument record has some identity; only its payload `2` matters) exhausts any
amount of fuel — the set call never terminates, because each upstream
notification re-triggers the merge's refresh with a freshly allocated record
and the re-entrant callback sets again; the feedback guard the spec mandates
is absent (the source comments "Missing a way of not recursing infinitely"). -/
theorem merge_reentrant_set_diverges (fuel : Nat) :
    mergeLoopSet fuel loop0 (100, 2) = none := by
  apply mergeLoopSet_no_return
  intro i pld hi
  have h1 : (some ((0 : Nat), (2 : Int)) : Option (Nat × Int)) = some (i, pld) := hi
  simp only [Option.some.injEq, Prod.mk.injEq] at h1
  show i < 1
  omega

end Domic

namespace Domic

/-!
Claim C8: `o.merge` (lines 843-885). An entry of the record passed to `merge`
is either a writable container (each entry's container is independent, so its
current value is carried inline) or a plain literal; the record itself is a
keyed list.
-/
inductive MEntry (α : Type)
  | cont (v : α)
  | lit (v : α)
deriving Repr, DecidableEq

/-- `o.get(entry)` (lines 820-824, used at line 852): a container contributes
its current value, a literal itself. -/
def MEntry.val : MEntry α → α
  | cont v => v
  | lit v => v

/-- `_get` (lines 848-856): build the merged record by iterating the
sources. -/
def mergeGet : List (String × MEntry α) → List (String × α)
  | [] => []
  | (k, e) :: rest => (k, e.val) :: mergeGet rest

/-- One iteration of `_set`'s loop (lines 860-865): look up the source under
the written key; a writable container receives `ob.set(value)`, a literal is
left untouched (the loop has no else branch). -/
def mergeSetKey (srcs : List (String × MEntry α)) (k : String) (v : α) :
    List (String × MEntry α) :=
  srcs.map (fun e =>
    if e.1 = k then
      match e.2 with
      | MEntry.cont _ => (e.1, MEntry.cont v)
      | MEntry.lit l => (e.1, MEntry.lit l)
    else e)

/-- `_set(_obj)` (lines 858-867): for each written property in turn, dispatch
to the matching source. -/
def mergeSet (srcs : List (String × MEntry α)) (vals : List (String × α)) :
    List (String × MEntry α) :=
  vals.foldl (fun acc kv => mergeSetKey acc kv.1 kv.2) srcs

/-- The counterexample's sources: property `a` backed by a container holding
`1`, property `b` a literal `5`. -/
def c8srcs : List (String × MEntry Int) :=
  [("a", MEntry.cont 1), ("b", MEntry.lit 5)]

/-- Claim C8 counterexample: `M.set({a: 2, b: 9})` sets the container behind
`a` but does not update the stored literal behind `b` — `_set` simply skips
entries that are not writable containers — so the subsequent merged value is
`{a: 2, b: 5}`, not the `{a: 2, b: 9}` the claim's "updates the locally
stored literal" requires. -/
theorem merge_literal_not_updated_ce :
    mergeSet c8srcs [("a", 2), ("b", 9)] =
      [("a", MEntry.cont 2), ("b", MEntry.lit 5)] ∧
    mergeGet (mergeSet c8srcs [("a", 2), ("b", 9)]) = [("a", 2), ("b", 5)] ∧
    mergeGet (mergeSet c8srcs [("a", 2), ("b", 9)]) ≠ [("a", 2), ("b", 9)] := by
  decide

theorem mergeSetKey_lit_mem (srcs : List (String × MEntry α)) (k0 : String)
    (v : α) (k : String) (l : α) (h : (k, MEntry.lit l) ∈ srcs) :
    (k, MEntry.lit l) ∈ mergeSetKey srcs k0 v := by
  unfold mergeSetKey
  have himg : (fun (e : String × MEntry α) =>
      if e.1 = k0 then
        match e.2 with
        | MEntry.cont _ => (e.1, MEntry.cont v)
        | MEntry.lit l => (e.1, MEntry.lit l)
      else e) (k, MEntry.lit l) = (k, MEntry.lit l) := by
    by_cases hk : k = k0 <;> simp [hk]
  rw [← himg]
  exact List.mem_map_of_mem _ h

theorem mergeSetKey_skip_mem (srcs : List (String × MEntry α)) (k0 : String)
    (v : α) (k : String) (e : MEntry α) (h : (k, e) ∈ srcs) (hk : k ≠ k0) :
    (k, e) ∈ mergeSetKey srcs k0 v := by
  unfold mergeSetKey
  have himg : (fun (e : String × MEntry α) =>
      if e.1 = k0 then
        match e.2 with
        | MEntry.cont _ => (e.1, MEntry.cont v)
        | MEntry.lit l => (e.1, MEntry.lit l)
      else e) (k, e) = (k, e) := by
    simp [hk]
  rw [← himg]
  exact List.mem_map_of_mem _ h

theorem mergeSetKey_cont_mem (srcs : List (String × MEntry α)) (v : α)
    (k : String) (c : α) (h : (k, MEntry.cont c) ∈ srcs) :
    (k, MEntry.cont v) ∈ mergeSetKey srcs k v := by
  unfold mergeSetKey
  have himg : (fun (e : String × MEntry α) =>
      if e.1 = k then
        match e.2 with
        | MEntry.cont _ => (e.1, MEntry.cont v)
        | MEntry.lit l => (e.1, MEntry.lit l)
      else e) (k, MEntry.cont c) = (k, MEntry.cont v) := by
    simp
  rw [← himg]
  exact List.mem_map_of_mem _ h

theorem mergeSet_lit_mem (vals : List (String × α))
    (srcs : List (String × MEntry α)) (k : String) (l : α)
    (h : (k, MEntry.lit l) ∈ srcs) :
    (k, MEntry.lit l) ∈ mergeSet srcs vals := by
  induction vals generalizing srcs with
  | nil => exact h
  | cons kv rest ih =>
    exact ih (mergeSetKey srcs kv.1 kv.2)
      (mergeSetKey_lit_mem srcs kv.1 kv.2 k l h)

theorem mergeSet_skip_mem (vals : List (String × α))
    (srcs : List (String × MEntry α)) (k : String) (e : MEntry α)
    (h : (k, e) ∈ srcs) (hk : k ∉ vals.map Prod.fst) :
    (k, e) ∈ mergeSet srcs vals := by
  induction vals generalizing srcs with
  | nil => exact h
  | cons kv rest ih =>
    have hk1 : k ≠ kv.1 := by
      intro hc
      exact hk (by simp [hc])
    have hk2 : k ∉ rest.map Prod.fst := by
      intro hc
      exact hk (by simp [hc])
    exact ih (mergeSetKey srcs kv.1 kv.2)
      (mergeSetKey_skip_mem srcs kv.1 kv.2 k e h hk1) hk2

theorem mergeSet_cont_mem (vals : List (String × α))
    (srcs : List (String × MEntry α)) (k : String) (c v : α)
    (hc : (k, MEntry.cont c) ∈ srcs) (hv : (k, v) ∈ vals)
    (hnd : (vals.map Prod.fst).Nodup) :
    (k, MEntry.cont v) ∈ mergeSet srcs vals := by
  induction vals generalizing srcs c with
  | nil => cases hv
  | cons kv rest ih =>
    have hnd1 : kv.1 ∉ rest.map Prod.fst := by
      simp only [List.map_cons, List.nodup_cons] at hnd
      exact hnd.1
    have hnd2 : (rest.map Prod.fst).Nodup := by
      simp only [List.map_cons, List.nodup_cons] at hnd
      exact hnd.2
    rcases List.mem_cons.mp hv with heq | hmem
    · have hk : k = kv.1 := by rw [← heq]
      have hvv : v = kv.2 := by rw [← heq]
      have h1 : (k, MEntry.cont v) ∈ mergeSetKey srcs kv.1 kv.2 := by
        rw [hk] at hc ⊢
        rw [hvv]
        exact mergeSetKey_cont_mem srcs kv.2 kv.1 c hc
      have hk2 : k ∉ rest.map Prod.fst := by
        rw [hk]; exact hnd1
      exact mergeSet_skip_mem rest (mergeSetKey srcs kv.1 kv.2) k
        (MEntry.cont v) h1 hk2
    · have hkne : k ≠ kv.1 := by
        intro hceq
        apply hnd1
        rw [← hceq]
        exact List.mem_map_of_mem Prod.fst hmem
      have h1 : (k, MEntry.cont c) ∈ mergeSetKey srcs kv.1 kv.2 :=
        mergeSetKey_skip_mem srcs kv.1 kv.2 k (MEntry.cont c) hc hkne
      exact ih (mergeSetKey srcs kv.1 kv.2) c h1 hmem hnd2

/-- Claim C8 amended: the merged value's properties mirror the sources 1:1
(container entries contribute their current value, literal entries
themselves), and `M.set(record)` dispatches each written property to the
corresponding source container's `set` when that entry is a container — but
literal entries are ignored: they keep their original stored value rather
than being updated. -/
theorem merge_mirror_and_dispatch (srcs : List (String × MEntry Int))
    (vals : List (String × Int)) :
    mergeGet srcs = srcs.map (fun e => (e.1, e.2.val)) ∧
    (∀ k l, (k, MEntry.lit l) ∈ srcs →
      (k, MEntry.lit l) ∈ mergeSet srcs vals) ∧
    (∀ k c v, (k, MEntry.cont c) ∈ srcs → (k, v) ∈ vals →
      (vals.map Prod.fst).Nodup → (k, MEntry.cont v) ∈ mergeSet srcs vals) := by
  refine ⟨?_, ?_, ?_⟩
  · induction srcs with
    | nil => rfl
    | cons e rest ih =>
      rcases e with ⟨k, e⟩
      simp [mergeGet, ih]
  · exact fun k l h => mergeSet_lit_mem vals srcs k l h
  · exact fun k c v hc hv hnd => mergeSet_cont_mem vals srcs k c v hc hv hnd

/-- Claim C8 amended, witness: at the concrete sources `{a: o(1), b: 5}` and
write `{a: 2, b: 9}`, the mirror holds, the literal keeps `5`, and the
container entry becomes `2`. -/
theorem merge_mirror_and_dispatch_witness :
    mergeGet c8srcs = c8srcs.map (fun e => (e.1, e.2.val)) ∧
    ("b", MEntry.lit (5 : Int)) ∈ mergeSet c8srcs [("a", 2), ("b", 9)] ∧
    ("a", MEntry.cont (2 : Int)) ∈ mergeSet c8srcs [("a", 2), ("b", 9)] :=
  ⟨(merge_mirror_and_dispatch c8srcs [("a", 2), ("b", 9)]).1,
   (merge_mirror_and_dispatch c8srcs [("a", 2), ("b", 9)]).2.1 "b" 5
     (by decide),
   (merge_mirror_and_dispatch c8srcs [("a", 2), ("b", 9)]).2.2 "a" 1 2
     (by decide) (by decide) (by decide)⟩

end Domic
